import Mathlib

/-!
Verification development for the extensible-leetcode-crawler repository.

The Python sources are embedded shallowly: machine floats that only ever hold
decimal literals are modelled as `Rat`, Python dictionaries coming from JSON
are modelled as typed structures with `Option` fields, and fallible Python
code returns `Except PyErr`.
-/

set_option autoImplicit false

namespace Crawler

/-- Python exception values that the embedded code can raise.
`keyError` is `dict[k]` on a missing key, `valueError` covers `float(...)`
failures and the entity validation errors raised in `__post_init__`,
`attributeError` is attribute access on an object lacking it,
`indexError` is `list[0]` on an empty list and `exception` is a plain
`Exception(msg)`.  `validationError` models the `ValidationException` of
`crawler.domain.exceptions` (file absent from the snapshot; the spec's
error taxonomy lists it as the adapter-level identity-field error). -/
inductive PyErr where
  | keyError (key : String)
  | valueError (msg : String)
  | attributeError (msg : String)
  | indexError
  | exception (msg : String)
  | validationError (msg : String)
  deriving DecidableEq, Repr

/-- Modelled from the spec: difficulty enum `Easy/Medium/Hard`
(`crawler/domain/value_objects/difficulty.py` is absent from the snapshot;
the spec's data model lists the three levels). -/
inductive Difficulty where
  | easy
  | medium
  | hard
  deriving DecidableEq, Repr

/-- The enum call `Difficulty(value)`: it raises `ValueError` for any
string other than the three member values. -/
def difficultyOfString : String → Option Difficulty
  | "Easy" => some .easy
  | "Medium" => some .medium
  | "Hard" => some .hard
  | _ => none

/-- Modelled from the spec: the `Example` value object
(`crawler/domain/value_objects/example.py` is absent from the snapshot; the
spec's data model gives input, output and an optional explanation). -/
structure Example where
  input : String
  output : String
  explanation : Option String
  deriving DecidableEq, Repr

/-- Modelled from the spec: the `Constraint` value object
(`crawler/domain/value_objects/constraint.py` is absent from the snapshot;
the spec's data model gives a single text field, non-empty after trim). -/
structure Constraint where
  text : String
  deriving DecidableEq, Repr

/-- Modelled from the spec: the submission status enum
(`crawler/domain/entities/enums.py` is absent from the snapshot; the spec
lists the six statuses). -/
inductive SubmissionStatus where
  | accepted
  | wrongAnswer
  | timeLimitExceeded
  | memoryLimitExceeded
  | runtimeError
  | compileError
  deriving DecidableEq, Repr

/-- Modelled from the spec: the `Submission` entity
(`crawler/domain/entities/submission.py` is absent from the snapshot; the
spec's data model lists these fields, with percentiles an optional pair). -/
structure Submission where
  id : String
  problem_id : String
  language : String
  code : String
  status : SubmissionStatus
  runtime : String
  memory : String
  timestamp : Int
  percentiles : Option (Rat × Rat)
  deriving DecidableEq, Repr

/-- The `Problem` entity of `src/crawler/domain/entities/problem.py`: a plain
`@dataclass` whose `constraints` field is a string in this version of the
file. -/
structure Problem where
  id : String
  platform : String
  title : String
  difficulty : Difficulty
  description : String
  topics : List String
  constraints : String
  examples : List Example
  hints : List String
  acceptance_rate : Rat
  deriving DecidableEq, Repr

/-- Validation of `Problem.__post_init__`: the checks run by the dataclass machinery
right after construction, raising `ValueError` in the source's check order. -/
def Problem.make (id platform title : String) (difficulty : Difficulty)
    (description : String) (topics : List String) (constraints : String)
    (examples : List Example) (hints : List String) (acceptance_rate : Rat) :
    Except PyErr Problem :=
  if id = "" then .error (.valueError "Problem ID cannot be empty")
  else if title = "" then .error (.valueError "Problem title cannot be empty")
  else if platform = "" then .error (.valueError "Problem platform cannot be empty")
  else if acceptance_rate < 0 ∨ acceptance_rate > 100 then
    .error (.valueError "Acceptance rate must be between 0 and 100")
  else .ok ⟨id, platform, title, difficulty, description, topics, constraints,
    examples, hints, acceptance_rate⟩

/-- The source file `problem.py` decorates `Problem` with `@dataclass` and no `frozen=True`,
so the generated class is an ordinary mutable dataclass. -/
def problemDataclassFrozen : Bool := false

/-- Assignment `p.title = v` on a `Problem` instance: a frozen dataclass
would raise `FrozenInstanceError` (an `AttributeError`); a plain dataclass
performs the assignment. -/
def Problem.pySetTitle (p : Problem) (v : String) : Except PyErr Problem :=
  if problemDataclassFrozen then .error (.attributeError "cannot assign to field")
  else .ok { p with title := v }

/-! ## Python string helpers -/

/-- The characters Python's `str.strip()` and the regex class `\s` treat as
whitespace (for ASCII input): space, tab, newline, carriage return,
vertical tab and form feed. -/
def isPySpace (c : Char) : Bool :=
  c = ' ' || c = '\t' || c = '\n' || c = '\r' || c = Char.ofNat 11 || c = Char.ofNat 12

/-- Drop trailing characters satisfying `p`. -/
def dropTrailing (p : Char → Bool) (l : List Char) : List Char :=
  (l.reverse.dropWhile p).reverse

/-- Python `str.strip()` on a character list. -/
def pyStrip (l : List Char) : List Char :=
  dropTrailing isPySpace (l.dropWhile isPySpace)

/-- Python `s.split('\n')` on a character list: split at every newline,
keeping empty pieces. -/
def splitLinesL : List Char → List (List Char)
  | [] => [[]]
  | c :: rest =>
    if c = '\n' then [] :: splitLinesL rest
    else
      match splitLinesL rest with
      | [] => [[c]]
      | l :: ls => (c :: l) :: ls

/-- Embedding of the substitution `re.sub` of pattern backslash-s-plus by one space: replace every maximal run of whitespace by a
single space.  The boolean records whether the previous character was part of
a whitespace run. -/
def collapseWsAux : Bool → List Char → List Char
  | _, [] => []
  | inRun, c :: rest =>
    if isPySpace c then
      if inRun then collapseWsAux true rest
      else ' ' :: collapseWsAux true rest
    else c :: collapseWsAux false rest

def collapseWs (l : List Char) : List Char := collapseWsAux false l

/-- Embedding of `BeautifulSoup(html, "html.parser").get_text()` restricted to plain tag
markup: characters between `<` and `>` are tag markup and are dropped, all
other characters are text.  (Comments, CDATA sections and entity decoding
are outside the modelled fragment; no input in this development uses them.) -/
def stripTagsAux : Bool → List Char → List Char
  | _, [] => []
  | true, c :: rest =>
    if c = '>' then stripTagsAux false rest else stripTagsAux true rest
  | false, c :: rest =>
    if c = '<' then stripTagsAux true rest else c :: stripTagsAux false rest

def stripTags (l : List Char) : List Char := stripTagsAux false l

/-- Embedding of `LeetCodeAdapter._parse_html` of
`src/crawler/infrastructure/platforms/leetcode/adapter.py`: empty input is
returned as is; otherwise the HTML is reduced to text, every whitespace run
(including newlines) is replaced by one space, and the ends are stripped. -/
def parse_html (s : String) : String :=
  if s = "" then ""
  else ⟨pyStrip (collapseWs (stripTags s.toList))⟩

/-- Embedding of `LeetCodeAdapter._parse_examples`: split the raw `exampleTestcases`
string into lines; every non-blank line becomes one `Example` whose input is
the stripped line and whose output is the placeholder
`"Example {i+1} output"` built from the line's index. -/
def parse_examples (s : String) : List Example :=
  if s = "" then []
  else
    ((splitLinesL (pyStrip s.toList)).enum).filterMap fun p =>
      let line := pyStrip p.2
      if line = [] then none
      else some
        { input := ⟨line⟩
          output := "Example " ++ toString (p.1 + 1) ++ " output"
          explanation := none }

/-! ## Python `float(...)` on strings -/

def digitVal (c : Char) : Nat := c.toNat - '0'.toNat

def digitsToNat (l : List Char) : Nat :=
  l.foldl (fun acc c => acc * 10 + digitVal c) 0

/-- Kernel-reducible integer power of ten. -/
def intPow10 : Nat → Int
  | 0 => 1
  | n + 1 => 10 * intPow10 n

/-- The rational `(-1)^neg * m * 10^scale`, built with `Rat.divInt` so that
kernel evaluation works. -/
def decScaled (m : Nat) (scale : Int) (neg : Bool) : Rat :=
  let sm : Int := if neg then -(m : Int) else (m : Int)
  match scale with
  | .ofNat k => Rat.divInt (sm * intPow10 k) 1
  | .negSucc k => Rat.divInt sm (intPow10 (k + 1))

/-- Digits of an exponent, which must consume the whole remaining input. -/
def parseExponentNat (rest : List Char) : Option Int :=
  let ds := rest.takeWhile Char.isDigit
  if ds = [] ∨ rest.drop ds.length ≠ [] then none
  else some (digitsToNat ds : Int)

def parseExponentDigits : List Char → Option Int
  | '+' :: rest => parseExponentNat rest
  | '-' :: rest => (parseExponentNat rest).map (fun n => -n)
  | rest => parseExponentNat rest

/-- Parse an optional decimal exponent `e`/`E` with optional sign; the
result is `none` when the characters do not form a complete exponent with
at least one digit or leave trailing characters. -/
def parseExponent : List Char → Option Int
  | [] => some 0
  | 'e' :: rest => parseExponentDigits rest
  | 'E' :: rest => parseExponentDigits rest
  | _ => none

/-- Python `float(s)` restricted to finite decimal literals: optional
surrounding whitespace, optional sign, digits with an optional fractional
part (at least one digit overall) and an optional exponent.  The special
forms `inf`/`nan` and digit-group underscores, which `float` also accepts,
are outside the modelled fragment; no parsed payload in this development
uses them. -/
def pyFloat (s : String) : Option Rat :=
  let l := pyStrip s.toList
  let (neg, l) :=
    match l with
    | '-' :: rest => (true, rest)
    | '+' :: rest => (false, rest)
    | rest => (false, rest)
  let intDigits := l.takeWhile Char.isDigit
  let afterInt := l.drop intDigits.length
  let (fracDigits, afterFrac) :=
    match afterInt with
    | '.' :: rest => (rest.takeWhile Char.isDigit, (rest.takeWhile Char.isDigit).length |> rest.drop)
    | rest => ([], rest)
  if intDigits = [] ∧ fracDigits = [] then none
  else
    match parseExponent afterFrac with
    | none => none
    | some e =>
      some (decScaled (digitsToNat (intDigits ++ fracDigits))
        (e - (fracDigits.length : Int)) neg)

/-! ## JSON (`json.loads`) -/

/-- A decoded JSON value, the result type of `json.loads`. -/
inductive JVal where
  | null
  | bool (b : Bool)
  | num (q : Rat)
  | str (s : String)
  | arr (xs : List JVal)
  | obj (fields : List (String × JVal))

def isJsonWs (c : Char) : Bool :=
  c = ' ' || c = '\t' || c = '\n' || c = '\r'

def skipWsJ (l : List Char) : List Char := l.dropWhile isJsonWs

def hexVal (c : Char) : Option Nat :=
  if c.isDigit then some (c.toNat - '0'.toNat)
  else if 'a' ≤ c ∧ c ≤ 'f' then some (c.toNat - 'a'.toNat + 10)
  else if 'A' ≤ c ∧ c ≤ 'F' then some (c.toNat - 'A'.toNat + 10)
  else none

/-- Parse the body of a JSON string literal (the opening quote already
consumed), returning the decoded characters and the rest of the input. -/
def parseStrAux : List Char → Option (List Char × List Char)
  | [] => none
  | '"' :: rest => some ([], rest)
  | '\\' :: 'u' :: h1 :: h2 :: h3 :: h4 :: rest =>
    match hexVal h1, hexVal h2, hexVal h3, hexVal h4 with
    | some a, some b, some c, some d =>
      (parseStrAux rest).map fun p =>
        (Char.ofNat (((a * 16 + b) * 16 + c) * 16 + d) :: p.1, p.2)
    | _, _, _, _ => none
  | '\\' :: e :: rest =>
    let dec : Option Char :=
      if e = '"' then some '"'
      else if e = '\\' then some '\\'
      else if e = '/' then some '/'
      else if e = 'n' then some '\n'
      else if e = 't' then some '\t'
      else if e = 'r' then some '\r'
      else if e = 'b' then some (Char.ofNat 8)
      else if e = 'f' then some (Char.ofNat 12)
      else none
    match dec with
    | none => none
    | some c => (parseStrAux rest).map fun p => (c :: p.1, p.2)
  | c :: rest =>
    if c.toNat < 32 then none
    else (parseStrAux rest).map fun p => (c :: p.1, p.2)

/-- The exponent part of a JSON number (`e`/`E` already consumed). -/
def parseNumExp (rest : List Char) : Option Int × List Char :=
  let (sgn, r1) :=
    match rest with
    | '+' :: r => ((1 : Int), r)
    | '-' :: r => ((-1 : Int), r)
    | r => ((1 : Int), r)
  let ds := r1.takeWhile Char.isDigit
  if ds = [] then (none, r1)
  else (some (sgn * (digitsToNat ds : Int)), r1.drop ds.length)

/-- Parse a JSON number token (grammar `-? (0 | [1-9][0-9]*) frac? exp?`),
returning its value and the rest of the input. -/
def parseNum (l : List Char) : Option (Rat × List Char) :=
  let (neg, l1) :=
    match l with
    | '-' :: rest => (true, rest)
    | rest => (false, rest)
  let intDigits := l1.takeWhile Char.isDigit
  if intDigits = [] then none
  else if intDigits.length > 1 ∧ intDigits.head? = some '0' then none
  else
    let afterInt := l1.drop intDigits.length
    let (fracDigits, afterFrac) :=
      match afterInt with
      | '.' :: rest =>
        let ds := rest.takeWhile Char.isDigit
        (ds, rest.drop ds.length)
      | _ => ([], afterInt)
    if afterInt.head? = some '.' ∧ fracDigits = [] then none
    else
      let (expVal, afterExp) :=
        match afterFrac with
        | 'e' :: rest => parseNumExp rest
        | 'E' :: rest => parseNumExp rest
        | rest => (some 0, rest)
      match expVal with
      | none => none
      | some e =>
        some (decScaled (digitsToNat (intDigits ++ fracDigits))
          (e - (fracDigits.length : Int)) neg, afterExp)

mutual

/-- Parse one JSON value; `fuel` bounds the recursion depth (strictly more
than the input length always suffices, since every nesting level consumes a
bracket). -/
def parseVal : Nat → List Char → Option (JVal × List Char)
  | 0, _ => none
  | fuel + 1, l =>
    match skipWsJ l with
    | 'n' :: 'u' :: 'l' :: 'l' :: rest => some (.null, rest)
    | 't' :: 'r' :: 'u' :: 'e' :: rest => some (.bool true, rest)
    | 'f' :: 'a' :: 'l' :: 's' :: 'e' :: rest => some (.bool false, rest)
    | '"' :: rest => (parseStrAux rest).map fun p => (.str ⟨p.1⟩, p.2)
    | '[' :: rest =>
      (match skipWsJ rest with
       | ']' :: rest2 => some (.arr [], rest2)
       | rest2 => (parseElems fuel rest2).map fun p => (.arr p.1, p.2))
    | '{' :: rest =>
      (match skipWsJ rest with
       | '}' :: rest2 => some (.obj [], rest2)
       | rest2 => (parseMembers fuel rest2).map fun p => (.obj p.1, p.2))
    | rest => (parseNum rest).map fun p => (.num p.1, p.2)

/-- Parse a non-empty comma-separated list of array elements up to and
including the closing `]`. -/
def parseElems : Nat → List Char → Option (List JVal × List Char)
  | 0, _ => none
  | fuel + 1, l =>
    match parseVal fuel l with
    | none => none
    | some (v, rest) =>
      match skipWsJ rest with
      | ',' :: rest2 =>
        (parseElems fuel rest2).map fun p => (v :: p.1, p.2)
      | ']' :: rest2 => some ([v], rest2)
      | _ => none

/-- Parse a non-empty comma-separated list of object members up to and
including the closing brace. -/
def parseMembers : Nat → List Char → Option (List (String × JVal) × List Char)
  | 0, _ => none
  | fuel + 1, l =>
    match skipWsJ l with
    | '"' :: rest =>
      (match parseStrAux rest with
       | none => none
       | some (key, rest2) =>
         match skipWsJ rest2 with
         | ':' :: rest3 =>
           (match parseVal fuel rest3 with
            | none => none
            | some (v, rest4) =>
              match skipWsJ rest4 with
              | ',' :: rest5 =>
                (parseMembers fuel rest5).map fun p => ((⟨key⟩, v) :: p.1, p.2)
              | '}' :: rest5 => some ([(⟨key⟩, v)], rest5)
              | _ => none)
         | _ => none)
    | _ => none

end

/-- Embedding of `json.loads(s)`: parse one value and require only whitespace after it. -/
def jsonParse (s : String) : Option JVal :=
  match parseVal (s.length + 1) s.toList with
  | some (v, rest) => if skipWsJ rest = [] then some v else none
  | none => none

/-- Lookup in the Python dict built from a JSON object: for duplicate keys
the last occurrence wins. -/
def dictGet (k : String) : List (String × JVal) → Option JVal
  | [] => none
  | (k', v) :: rest =>
    match dictGet k rest with
    | some r => some r
    | none => if k' = k then some v else none

/-- Python `s.rstrip('%')`. -/
def rstripPercent (s : String) : String :=
  ⟨dropTrailing (fun c => c = '%') s.toList⟩

/-- Embedding of `LeetCodeAdapter._parse_acceptance_rate`: empty input short-circuits to
`0.0`; otherwise `json.loads`, `stats.get("acRate", "0%")`, strip `%`, parse
a float.  `JSONDecodeError`, `ValueError` and `KeyError` are caught and give
`0.0`, but the attribute accesses `.get` (on a non-dict) and `.rstrip` (on a
non-string) raise `AttributeError`, which the `except` clause does not
cover. -/
def parse_acceptance_rate (stats_json : String) : Except PyErr Rat :=
  if stats_json = "" then .ok 0
  else
    match jsonParse stats_json with
    | none => .ok 0
    | some (.obj fields) =>
      match (dictGet "acRate" fields).getD (.str "0%") with
      | .str a =>
        match pyFloat (rstripPercent a) with
        | some r => .ok r
        | none => .ok 0
      | _ => .error (.attributeError "rstrip")
    | some _ => .error (.attributeError "get")

/-! ## `LeetCodeAdapter.adapt_problem` -/

/-- One entry of the raw `topicTags` list; `tag["name"]` raises `KeyError`
when the key is absent. -/
structure RawTag where
  name : Option String
  deriving DecidableEq, Repr

/-- The raw `question` dictionary of a problem payload, decoded into a typed
structure: an `Option` field is `none` exactly when the key is absent from
the dictionary. -/
structure RawQuestion where
  titleSlug : Option String := none
  title : Option String := none
  difficulty : Option String := none
  content : Option String := none
  exampleTestcases : Option String := none
  stats : Option String := none
  constraints : Option String := none
  topicTags : Option (List RawTag) := none
  hints : Option (List String) := none
  deriving DecidableEq, Repr

/-- Python `d[k]`: the value when the key is present, `KeyError` otherwise. -/
def req {α : Type} (k : String) : Option α → Except PyErr α
  | some a => .ok a
  | none => .error (.keyError k)

/-- The comprehension building `[tag["name"] for tag in tags]`. -/
def tagNames : List RawTag → Except PyErr (List String)
  | [] => .ok []
  | t :: ts => do
    let n ← req "name" t.name
    let ns ← tagNames ts
    .ok (n :: ns)

/-- Embedding of `LeetCodeAdapter.adapt_problem` of
`src/crawler/infrastructure/platforms/leetcode/adapter.py`, with the
sub-parses evaluated in source order: `content` is read with `[]` (KeyError
if absent), `exampleTestcases`/`stats`/`topicTags`/`hints`/`constraints`
with `.get` defaults, then the `Problem` keyword arguments are evaluated
(`titleSlug`, `title`, `difficulty` with `[]`) and validation runs. -/
def adapt_problem (q : RawQuestion) : Except PyErr Problem := do
  let content ← req "content" q.content
  let description := parse_html content
  let examples := parse_examples (q.exampleTestcases.getD "")
  let acceptance_rate ← parse_acceptance_rate (q.stats.getD "{}")
  let topics ← tagNames (q.topicTags.getD [])
  let hints := q.hints.getD []
  let constraints := q.constraints.getD ""
  let id ← req "titleSlug" q.titleSlug
  let title ← req "title" q.title
  let diffStr ← req "difficulty" q.difficulty
  let difficulty ←
    match difficultyOfString diffStr with
    | some d => Except.ok d
    | none => Except.error (.valueError "not a valid Difficulty")
  Problem.make id "leetcode" title difficulty description topics constraints
    examples hints acceptance_rate

/-! ## `LeetCodeClient.fetch_submission`
(`src/crawler/infrastructure/platforms/leetcode/client.py`) -/

/-- The decoded GraphQL response body: `errors` is the optional `"errors"`
list, each entry carrying its `"message"`. -/
structure GqlResp where
  errors : Option (List String) := none
  deriving DecidableEq, Repr

def placeholderCode : String :=
  "# Placeholder code\n# Authentication required to fetch actual submission"

/-- Embedding of `LeetCodeClient.fetch_submission`: after the question-id request
succeeds, a response carrying GraphQL errors raises; otherwise the method
ignores the user's submissions entirely and returns the hard-coded
placeholder `Submission`. -/
def fetch_submission (problem_id _username : String) (resp : GqlResp) :
    Except PyErr Submission :=
  match resp.errors with
  | some [] => .error .indexError
  | some (m :: _) => .error (.exception ("GraphQL error: " ++ m))
  | none =>
    .ok
      { id := "placeholder"
        problem_id := problem_id
        language := "python3"
        code := placeholderCode
        status := .accepted
        runtime := "N/A"
        memory := "N/A"
        timestamp := 0
        percentiles := none }

/-! ## The batch script (`batch_download_solutions.py`) -/

/-- Whether `pat` matches the list at its head (character by character). -/
def leadsWith : List Char → List Char → Bool
  | [], _ => true
  | _ :: _, [] => false
  | p :: ps, c :: cs => p = c && leadsWith ps cs

/-- The remainder after the first occurrence of `pat`, scanning left to
right (the search part of `re.search`). -/
def afterFirst (pat : List Char) : List Char → Option (List Char)
  | [] => if leadsWith pat [] then some [] else none
  | c :: rest =>
    if leadsWith pat (c :: rest) then some ((c :: rest).drop pat.length)
    else afterFirst pat rest

/-- Embedding of the search for pattern `/problems/([^/]+)` in `url` followed by `.group(1)`: the
first maximal non-empty run of non-`/` characters after `/problems/`. -/
def extractSlug (url : String) : Option String :=
  match afterFirst "/problems/".toList url.toList with
  | none => none
  | some rest =>
    let slug := rest.takeWhile (fun c => c ≠ '/')
    if slug = [] then none else some ⟨slug⟩

/-- Embedding of `check_needs_update(url, filepath, session, csrf)` with its external
effects abstracted: `fileExists` is `os.path.exists(filepath)`, `fileTs` is
`get_file_submission_timestamp(filepath)`, and `fetch slug` is
`client.get_last_accepted_submission(slug)` — `none` when no submission is
returned (including every fetch error, which the client catches internally
and turns into `None`), `some tsOpt` a submission dict whose optional
`timestamp` entry defaults to `0` under `.get('timestamp', 0)`. -/
def check_needs_update (fileExists : Bool) (fileTs : Option Int)
    (fetch : String → Option (Option Int)) (url : String) : Bool × Option Int :=
  if fileExists = false then (true, none)
  else
    match fileTs with
    | none => (true, none)
    | some ft =>
      match extractSlug url with
      | none => (false, none)
      | some slug =>
        match fetch slug with
        | none => (false, none)
        | some tsOpt =>
          let newTs := tsOpt.getD 0
          if newTs > ft then (true, some newTs) else (false, some newTs)

/-- The three modes of `main`: `--force`, `--update`, and the default
(skip existing files). -/
inductive Mode where
  | skip
  | update
  | force
  deriving DecidableEq, Repr

/-- The environment a batch run interacts with, keyed by the problem name
(the extracted slug): file existence, the timestamp stored in the file, the
remote submission lookup, and whether `download_problem` succeeds. -/
structure BatchEnv where
  fileExists : String → Bool
  fileTs : String → Option Int
  fetch : String → Option (Option Int)
  downloadOk : String → Bool

inductive ItemAction where
  | doDownload (updating : Bool)
  | doSkip
  deriving DecidableEq, Repr

/-- The per-item branch of `main`'s loop: force always downloads; update
checks `check_needs_update` for existing files; otherwise existing files are
skipped and missing ones downloaded. -/
def decideItem (mode : Mode) (env : BatchEnv) (url : String) : ItemAction :=
  let name := (extractSlug url).getD url
  match mode with
  | .force => .doDownload false
  | .update =>
    if env.fileExists name then
      if (check_needs_update true (env.fileTs name) env.fetch url).1 then
        .doDownload true
      else .doSkip
    else .doDownload false
  | .skip => if env.fileExists name then .doSkip else .doDownload false

/-- The counters printed in `main`'s summary; `total` is `len(urls)`. -/
structure BatchStats where
  success : Nat
  skipped : Nat
  failed : Nat
  updated : Nat
  total : Nat
  deriving DecidableEq, Repr

/-- One iteration of the download loop of `main`: update the counters and,
when a download is attempted, record the url in the trace. -/
def batchStep (mode : Mode) (env : BatchEnv) (acc : BatchStats × List String)
    (url : String) : BatchStats × List String :=
  let name := (extractSlug url).getD url
  match decideItem mode env url with
  | .doSkip => ({ acc.1 with skipped := acc.1.skipped + 1 }, acc.2)
  | .doDownload upd =>
    let s1 :=
      if upd then { acc.1 with updated := acc.1.updated + 1 } else acc.1
    if env.downloadOk name then
      ({ s1 with success := s1.success + 1 }, acc.2 ++ [url])
    else ({ s1 with failed := s1.failed + 1 }, acc.2 ++ [url])

/-- The download loop of `main`: fold over the work list, counting; the
second component records the urls for which `download_problem` was
invoked.  `total` is `len(urls)`, printed as the summary total. -/
def runBatch (mode : Mode) (env : BatchEnv) (urls : List String) :
    BatchStats × List String :=
  urls.foldl (batchStep mode env)
    ({ success := 0, skipped := 0, failed := 0, updated := 0,
       total := urls.length }, [])

/-! ## `LeetCodeClient.fetch_all_problems_with_status`
(`utils/leetcode_client.py`) and `get_solved_problem_urls` -/

/-- One entry of the `questions` array of a `problemsetQuestionList`
response. -/
structure LCQuestion where
  frontendQuestionId : String
  titleSlug : String
  status : Option String
  deriving DecidableEq, Repr

/-- One page of the paged response: the `questions` data and the reported
`total` count. -/
structure LCPage where
  questions : List LCQuestion
  total : Int
  deriving Repr

/-- The `while True` paging loop: fetch the page at offset `skip`, stop on
an empty `questions` list, otherwise append, advance `skip` by the fixed
limit 100 and stop once `skip >= total`.  `fuel` bounds the number of
iterations; `none` models a run that exceeds it (the Python loop would
still be running). -/
def fetchAllAux (server : Nat → LCPage) : Nat → Nat → List LCQuestion →
    Option (List LCQuestion)
  | 0, _, _ => none
  | fuel + 1, skip, acc =>
    let page := server skip
    if page.questions = [] then some acc
    else
      let acc2 := acc ++ page.questions
      let skip2 := skip + 100
      if (skip2 : Int) ≥ page.total then some acc2
      else fetchAllAux server fuel skip2 acc2

/-- Embedding of `LeetCodeClient.fetch_all_problems_with_status`, starting at offset 0
with an empty accumulator. -/
def fetch_all_problems_with_status (server : Nat → LCPage) (fuel : Nat) :
    Option (List LCQuestion) :=
  fetchAllAux server fuel 0 []

/-- The duplicate-removal loop of `get_solved_problem_urls`: keep the first
occurrence of each url, tracking a `seen` set. -/
def dedupKeepFirst (seen : List String) : List String → List String
  | [] => []
  | u :: rest =>
    if u ∈ seen then dedupKeepFirst seen rest
    else u :: dedupKeepFirst (u :: seen) rest

/-- Embedding of `get_solved_problem_urls` after the fetch: keep problems whose `status`
is `'ac'`, turn each non-empty `titleSlug` into a url, and de-duplicate
preserving order. -/
def get_solved_problem_urls (problems : List LCQuestion) : List String :=
  let solved := problems.filter (fun p => p.status = some "ac")
  let urls := solved.filterMap fun p =>
    if p.titleSlug = "" then none
    else some ("https://leetcode.com/problems/" ++ p.titleSlug ++ "/")
  dedupKeepFirst [] urls

/-! ## Constraint extraction

Modelled from the spec: the enhanced-parsing adapter methods
`_extract_description_parts` / `_parse_constraints_from_text` /
`_clean_constraint_text` are exercised by `tests/unit/domain/test_constraint.py`
and `tests/unit/.../test_adapter.py` but their implementation is absent from
the snapshot (the `adapter.py` present predates them and stores the raw
constraints string).  The definitions below follow the spec's §4.3
description of constraint extraction. -/

def lowerL (l : List Char) : List Char := l.map Char.toLower

/-- The two follow-up markers, matched case-insensitively. -/
def markerA : List Char := "follow-up:".toList

def markerB : List Char := "followup:".toList

/-- One of the follow-up markers starts at the head of `l` (case
insensitively). -/
def isMarkerAt (l : List Char) : Bool :=
  leadsWith markerA (lowerL l) || leadsWith markerB (lowerL l)

/-- Index of the first follow-up marker occurrence, scanning left to right.
(The markers are non-empty, so they never match inside the empty list.) -/
def findMarker : List Char → Option Nat
  | [] => none
  | c :: rest =>
    if isMarkerAt (c :: rest) then some 0
    else (findMarker rest).map (· + 1)

/-- Modelled from the spec: "Any text at/after a case-insensitive
`Follow-up:`/`Followup:` marker is removed *before* splitting". -/
def removeFollowUp (l : List Char) : List Char :=
  match findMarker l with
  | none => l
  | some i => l.take i

/-- Some follow-up marker occurs somewhere in `l`. -/
def containsMarker : List Char → Bool
  | [] => false
  | c :: rest => isMarkerAt (c :: rest) || containsMarker rest

def isBulletChar (c : Char) : Bool :=
  c = '•' || c = '-' || c = '*'

/-- Strip one leading bullet marker (`•`, `-`, `*`) followed by a space. -/
def stripBullet (l : List Char) : List Char :=
  match l with
  | c :: d :: rest => if isBulletChar c && d = ' ' then rest else l
  | _ => l

/-- Strip one leading enumeration marker (`1. ` and the like). -/
def stripNumMarker (l : List Char) : List Char :=
  if l.takeWhile Char.isDigit ≠ [] ∧
      (l.drop (l.takeWhile Char.isDigit).length).take 2 = ['.', ' '] then
    (l.drop (l.takeWhile Char.isDigit).length).drop 2
  else l

/-- Strip one trailing period. -/
def stripTrailingPeriod (l : List Char) : List Char :=
  if l.getLast? = some '.' then l.dropLast else l

/-- Modelled from the spec: "Each item: strip leading bullet/number marker,
strip one trailing period, trim whitespace; internal punctuation and numeric
expressions preserved byte-for-byte." -/
def cleanConstraintText (l : List Char) : List Char :=
  pyStrip (stripTrailingPeriod (pyStrip (stripNumMarker (stripBullet (pyStrip l)))))

/-- The line starts (after trimming, modulo one `-` sign) with the numeric
range pattern `<int> <= …` of splitting strategy (a). -/
def leadsNumericRange (l : List Char) : Bool :=
  let t := pyStrip l
  let t1 := if t.headD ' ' = '-' then t.drop 1 else t
  let ds := t1.takeWhile Char.isDigit
  ds ≠ [] && leadsWith ['<', '='] ((t1.drop ds.length).dropWhile isPySpace)

/-- The line starts (after trimming) with a bullet marker and a space, for
splitting strategy (b). -/
def isBulletLine (l : List Char) : Bool :=
  match pyStrip l with
  | c :: d :: _ => isBulletChar c && d = ' '
  | _ => false

def nonBlankLines (l : List Char) : List (List Char) :=
  (splitLinesL l).filter (fun ln => decide (pyStrip ln ≠ []))

/-- Modelled from the spec: `_parse_constraints_from_text` splits the
section into items by the ordered strategy chain — (a) leading numeric-range
pattern, (b) line-leading bullet marker, (c) fallback newline split; the
first strategy that matches a line wins.  All three strategies split at line
granularity in this model (one item per non-blank line; the multi-line item
grouping of strategies (a)/(b) is not modelled — it does not affect which
text can reach an item).  Each item is then cleaned; items that clean to the
empty string yield no `Constraint` (its text must be non-empty). -/
def parse_constraints_from_text (s : String) : List Constraint :=
  let lines := nonBlankLines s.toList
  let items :=
    if lines.any leadsNumericRange then lines
    else if lines.any isBulletLine then lines
    else lines
  items.filterMap fun ln =>
    let t := cleanConstraintText ln
    if t = [] then none else some ⟨⟨t⟩⟩

/-- Modelled from the spec: the constraint half of
`_extract_description_parts` — remove everything at/after the follow-up
marker, then split the remainder into constraints. -/
def extract_constraints (sec : String) : List Constraint :=
  parse_constraints_from_text ⟨removeFollowUp sec.toList⟩

/-! ## Sub-segment relation used to state the follow-up property -/

/-- The relation `SubSeg a b`: `a` occurs in `b` as a contiguous segment. -/
def SubSeg (a b : List Char) : Prop :=
  ∃ pre post, b = pre ++ a ++ post

theorem SubSeg.refl (l : List Char) : SubSeg l l := ⟨[], [], by simp⟩

theorem SubSeg.trans {a b c : List Char} (h₁ : SubSeg a b) (h₂ : SubSeg b c) :
    SubSeg a c := by
  obtain ⟨p₁, q₁, rfl⟩ := h₁
  obtain ⟨p₂, q₂, rfl⟩ := h₂
  exact ⟨p₂ ++ p₁, q₁ ++ q₂, by simp⟩

theorem SubSeg.cons {a b : List Char} (c : Char) (h : SubSeg a b) :
    SubSeg a (c :: b) := by
  obtain ⟨p, q, rfl⟩ := h
  exact ⟨c :: p, q, by simp⟩

theorem subSeg_drop (l : List Char) (n : Nat) : SubSeg (l.drop n) l :=
  ⟨l.take n, [], by simp⟩

theorem subSeg_take (l : List Char) (n : Nat) : SubSeg (l.take n) l :=
  ⟨[], l.drop n, by simp⟩

theorem subSeg_dropWhile (p : Char → Bool) (l : List Char) :
    SubSeg (l.dropWhile p) l := by
  induction l with
  | nil => exact SubSeg.refl []
  | cons c rest ih =>
    by_cases h : p c
    · simpa [List.dropWhile, h] using SubSeg.cons c ih
    · simpa [List.dropWhile, h] using SubSeg.refl (c :: rest)

theorem subSeg_dropTrailing (p : Char → Bool) (l : List Char) :
    SubSeg (dropTrailing p l) l := by
  obtain ⟨pre, post, h⟩ := subSeg_dropWhile p l.reverse
  refine ⟨post.reverse, pre.reverse, ?_⟩
  have := congrArg List.reverse h
  simpa [dropTrailing, List.reverse_append] using this

theorem subSeg_pyStrip (l : List Char) : SubSeg (pyStrip l) l :=
  (subSeg_dropTrailing isPySpace _).trans (subSeg_dropWhile isPySpace l)

theorem subSeg_stripBullet (l : List Char) : SubSeg (stripBullet l) l := by
  match l with
  | [] => exact SubSeg.refl []
  | [c] => exact SubSeg.refl [c]
  | c :: d :: rest =>
    by_cases h : isBulletChar c && d = ' '
    · exact ⟨[c, d], [], by simp [stripBullet, h]⟩
    · simpa [stripBullet, h] using SubSeg.refl (c :: d :: rest)

theorem subSeg_stripNumMarker (l : List Char) : SubSeg (stripNumMarker l) l := by
  unfold stripNumMarker
  split
  · exact (subSeg_drop _ 2).trans (subSeg_drop l _)
  · exact SubSeg.refl l

theorem dropLast_decomp (l : List Char) : ∃ post, l = l.dropLast ++ post := by
  induction l with
  | nil => exact ⟨[], rfl⟩
  | cons c rest ih =>
    match rest, ih with
    | [], _ => exact ⟨[c], rfl⟩
    | d :: t, ih =>
      obtain ⟨post, h⟩ := ih
      exact ⟨post, by simpa using congrArg (c :: ·) h⟩

theorem subSeg_dropLast (l : List Char) : SubSeg l.dropLast l := by
  obtain ⟨post, h⟩ := dropLast_decomp l
  exact ⟨[], post, by simpa using h⟩

theorem subSeg_stripTrailingPeriod (l : List Char) :
    SubSeg (stripTrailingPeriod l) l := by
  unfold stripTrailingPeriod
  by_cases h : l.getLast? = some '.'
  · simpa [h] using subSeg_dropLast l
  · simpa [h] using SubSeg.refl l

theorem subSeg_cleanConstraintText (l : List Char) :
    SubSeg (cleanConstraintText l) l :=
  (subSeg_pyStrip _).trans <|
    (subSeg_stripTrailingPeriod _).trans <|
      (subSeg_pyStrip _).trans <|
        (subSeg_stripNumMarker _).trans <|
          (subSeg_stripBullet _).trans (subSeg_pyStrip l)

/-! ## Marker lemmas -/

theorem leadsWith_append {pat x : List Char} (y : List Char)
    (h : leadsWith pat x = true) : leadsWith pat (x ++ y) = true := by
  induction pat generalizing x with
  | nil => rfl
  | cons p ps ih =>
    match x with
    | [] => simp [leadsWith] at h
    | c :: cs =>
      simp only [leadsWith, Bool.and_eq_true] at h ⊢
      exact ⟨h.1, ih h.2⟩

theorem isMarkerAt_append {x : List Char} (y : List Char)
    (h : isMarkerAt x = true) : isMarkerAt (x ++ y) = true := by
  simp only [isMarkerAt, lowerL, List.map_append, Bool.or_eq_true] at h ⊢
  rcases h with h | h
  · exact Or.inl (leadsWith_append _ h)
  · exact Or.inr (leadsWith_append _ h)

theorem containsMarker_append_left {x : List Char} (y : List Char)
    (h : containsMarker x = true) : containsMarker (x ++ y) = true := by
  induction x with
  | nil => simp [containsMarker] at h
  | cons c cs ih =>
    simp only [containsMarker, Bool.or_eq_true] at h ⊢
    rcases h with h | h
    · exact Or.inl (by simpa using isMarkerAt_append y h)
    · exact Or.inr (ih h)

theorem containsMarker_append_right (x : List Char) {y : List Char}
    (h : containsMarker y = true) : containsMarker (x ++ y) = true := by
  induction x with
  | nil => simpa using h
  | cons c cs ih =>
    simp only [List.cons_append, containsMarker, Bool.or_eq_true]
    exact Or.inr ih

theorem subSeg_marker_free {a b : List Char} (hs : SubSeg a b)
    (hb : containsMarker b = false) : containsMarker a = false := by
  obtain ⟨pre, post, rfl⟩ := hs
  by_contra h
  have ha : containsMarker a = true := by
    cases hca : containsMarker a
    · exact absurd hca h
    · rfl
  have : containsMarker (pre ++ (a ++ post)) = true :=
    containsMarker_append_right pre (containsMarker_append_left post ha)
  rw [← List.append_assoc] at this
  rw [this] at hb
  simp at hb

theorem leadsWith_take {pat x : List Char} {k : Nat}
    (h : leadsWith pat (x.take k) = true) : leadsWith pat x = true := by
  induction pat generalizing x k with
  | nil => rfl
  | cons p ps ih =>
    match x, k with
    | [], _ => simpa using h
    | _ :: _, 0 => simp [leadsWith] at h
    | c :: cs, k + 1 =>
      simp only [List.take, leadsWith, Bool.and_eq_true] at h ⊢
      exact ⟨h.1, ih h.2⟩

theorem isMarkerAt_take {x : List Char} {k : Nat}
    (h : isMarkerAt (x.take k) = true) : isMarkerAt x = true := by
  simp only [isMarkerAt, lowerL, List.map_take, Bool.or_eq_true] at h ⊢
  rcases h with h | h
  · exact Or.inl (leadsWith_take h)
  · exact Or.inr (leadsWith_take h)

theorem findMarker_first {l : List Char} {i : Nat} (h : findMarker l = some i) :
    ∀ j, j < i → isMarkerAt (l.drop j) = false := by
  induction l generalizing i with
  | nil => simp [findMarker] at h
  | cons c rest ih =>
    intro j hj
    by_cases hm : isMarkerAt (c :: rest) = true
    · simp [findMarker, hm] at h
      omega
    · have hm' : isMarkerAt (c :: rest) = false := by
        cases hmm : isMarkerAt (c :: rest)
        · rfl
        · exact absurd hmm hm
      simp only [findMarker, hm', Bool.false_eq_true, if_false,
        Option.map_eq_some'] at h
      obtain ⟨i', hi', rfl⟩ := h
      match j with
      | 0 => simpa using hm'
      | j + 1 => exact ih hi' j (by omega)

theorem findMarker_none {l : List Char} (h : findMarker l = none) :
    ∀ j, isMarkerAt (l.drop j) = false := by
  induction l with
  | nil => intro j; simpa using (by decide : isMarkerAt [] = false)
  | cons c rest ih =>
    intro j
    by_cases hm : isMarkerAt (c :: rest) = true
    · simp [findMarker, hm] at h
    · have hm' : isMarkerAt (c :: rest) = false := by
        cases hmm : isMarkerAt (c :: rest)
        · rfl
        · exact absurd hmm hm
      simp only [findMarker, hm', Bool.false_eq_true, if_false,
        Option.map_eq_none'] at h
      match j with
      | 0 => simpa using hm'
      | j + 1 => exact ih h j

theorem containsMarker_eq_false {l : List Char}
    (h : ∀ j, isMarkerAt (l.drop j) = false) : containsMarker l = false := by
  induction l with
  | nil => rfl
  | cons c rest ih =>
    simp only [containsMarker, Bool.or_eq_false_iff]
    exact ⟨by simpa using h 0, ih fun j => by simpa using h (j + 1)⟩

theorem removeFollowUp_marker_free (l : List Char) :
    containsMarker (removeFollowUp l) = false := by
  unfold removeFollowUp
  cases hf : findMarker l with
  | none => exact containsMarker_eq_false (findMarker_none hf)
  | some i =>
    refine containsMarker_eq_false fun j => ?_
    cases hm : isMarkerAt ((l.take i).drop j) with
    | false => rfl
    | true =>
      exfalso
      rw [List.drop_take] at hm
      have hx := isMarkerAt_take hm
      by_cases hji : j < i
      · rw [findMarker_first hf j hji] at hx
        exact Bool.false_ne_true hx
      · have : i - j = 0 := by omega
        rw [this] at hm
        simp only [List.take_zero] at hm
        exact Bool.false_ne_true ((by decide : isMarkerAt [] = false) ▸ hm)

/-! ## Line-split lemmas -/

theorem splitLinesL_ne_nil (l : List Char) : splitLinesL l ≠ [] := by
  match l with
  | [] => simp [splitLinesL]
  | c :: rest =>
    by_cases h : c = '\n'
    · simp [splitLinesL, h]
    · simp only [splitLinesL, h, if_false]
      cases splitLinesL rest <;> simp

theorem splitLinesL_head_decomp (l : List Char) :
    ∃ post, l = (splitLinesL l).headD [] ++ post := by
  induction l with
  | nil => exact ⟨[], rfl⟩
  | cons c rest ih =>
    by_cases hc : c = '\n'
    · exact ⟨c :: rest, by simp [splitLinesL, hc]⟩
    · obtain ⟨post, hpost⟩ := ih
      cases hsp : splitLinesL rest with
      | nil => exact absurd hsp (splitLinesL_ne_nil rest)
      | cons hd tl =>
        rw [hsp] at hpost
        refine ⟨post, ?_⟩
        simp only [splitLinesL, hc, if_false, hsp, List.headD_cons]
        simpa using congrArg (c :: ·) hpost

theorem mem_splitLinesL_subSeg {l ln : List Char} (h : ln ∈ splitLinesL l) :
    SubSeg ln l := by
  induction l generalizing ln with
  | nil =>
    simp only [splitLinesL, List.mem_singleton] at h
    exact h ▸ ⟨[], [], by simp⟩
  | cons c rest ih =>
    by_cases hc : c = '\n'
    · simp only [splitLinesL, hc, if_true, List.mem_cons] at h
      rcases h with rfl | h
      · exact ⟨[], '\n' :: rest, by simp [hc]⟩
      · exact (ih h).cons c
    · simp only [splitLinesL, hc, if_false] at h
      cases hsp : splitLinesL rest with
      | nil => exact absurd hsp (splitLinesL_ne_nil rest)
      | cons hd tl =>
        rw [hsp, List.mem_cons] at h
        rcases h with rfl | h
        · obtain ⟨post, hpost⟩ := splitLinesL_head_decomp (c :: rest)
          rw [show splitLinesL (c :: rest) = (c :: hd) :: tl by
            simp [splitLinesL, hc, hsp]] at hpost
          exact ⟨[], post, by simpa using hpost⟩
        · exact (ih (hsp ▸ List.mem_cons_of_mem hd h)).cons c

theorem mem_extract_constraints_subSeg {s : String} {c : Constraint}
    (hc : c ∈ extract_constraints s) :
    SubSeg c.text.toList (removeFollowUp s.toList) := by
  unfold extract_constraints parse_constraints_from_text at hc
  simp only [ite_self, List.mem_filterMap] at hc
  obtain ⟨ln, hln, heq⟩ := hc
  by_cases ht : cleanConstraintText ln = []
  · simp [ht] at heq
  · simp only [ht, if_false, Option.some_inj] at heq
    have hmem : ln ∈ splitLinesL (removeFollowUp s.toList) := by
      have := List.mem_filter.mp hln
      exact this.1
    have hsub : SubSeg (cleanConstraintText ln) (removeFollowUp s.toList) :=
      (subSeg_cleanConstraintText ln).trans (mem_splitLinesL_subSeg hmem)
    rw [← heq]
    exact hsub

/-- C5: modelled from the spec, everything at/after a case-insensitive
`Follow-up:`/`Followup:` marker is removed before the constraints section is
split, so no parsed constraint contains the marker, every constraint's text
lies inside the marker-free prefix, and when a marker occurs at index `i`
the text lies inside the part of the input strictly before the marker. -/
theorem extract_constraints_followup_free :
    ∀ (s : String) (c : Constraint), c ∈ extract_constraints s →
      containsMarker c.text.toList = false ∧
      SubSeg c.text.toList (removeFollowUp s.toList) ∧
      ∀ i, findMarker s.toList = some i → SubSeg c.text.toList (s.toList.take i) := by
  intro s c hc
  have hsub := mem_extract_constraints_subSeg hc
  refine ⟨subSeg_marker_free hsub (removeFollowUp_marker_free s.toList), hsub, ?_⟩
  intro i hi
  have : removeFollowUp s.toList = s.toList.take i := by
    unfold removeFollowUp
    rw [hi]
  exact this ▸ hsub

/-- Witness for C5 at a concrete constraints section containing a
follow-up sentence: the single parsed constraint is the pre-marker text. -/
theorem extract_constraints_followup_free_witness :
    containsMarker (Constraint.mk "1 <= n <= 10").text.toList = false ∧
    SubSeg (Constraint.mk "1 <= n <= 10").text.toList
      (removeFollowUp "1 <= n <= 10\nFollow-up: can you do it faster?".toList) ∧
    ∀ i, findMarker "1 <= n <= 10\nFollow-up: can you do it faster?".toList = some i →
      SubSeg (Constraint.mk "1 <= n <= 10").text.toList
        ("1 <= n <= 10\nFollow-up: can you do it faster?".toList.take i) :=
  extract_constraints_followup_free
    "1 <= n <= 10\nFollow-up: can you do it faster?"
    (Constraint.mk "1 <= n <= 10") (by decide)

end Crawler

namespace Crawler

/-! ## Claim C1: adapt_problem and required fields -/

instance decEqExcept {e a : Type} [DecidableEq e] [DecidableEq a] :
    DecidableEq (Except e a)
  | .ok x, .ok y =>
    if h : x = y then .isTrue (by rw [h])
    else .isFalse (by intro hh; cases hh; exact h rfl)
  | .ok _, .error _ => .isFalse (by intro h; cases h)
  | .error _, .ok _ => .isFalse (by intro h; cases h)
  | .error x, .error y =>
    if h : x = y then .isTrue (by rw [h])
    else .isFalse (by intro hh; cases hh; exact h rfl)

@[simp] theorem except_bind_ok {α β : Type} (a : α) (f : α → Except PyErr β) :
    (Except.ok a : Except PyErr α) >>= f = f a := rfl

@[simp] theorem except_bind_error {α β : Type} (e : PyErr) (f : α → Except PyErr β) :
    (Except.error e : Except PyErr α) >>= f = Except.error e := rfl

/-- Whether a raised error is the spec's `ValidationError`. -/
def PyErr.isValidationError : PyErr → Bool
  | .validationError _ => true
  | _ => false

/-- C1 counterexample: with both identity fields present (`titleSlug`,
`title`) but the optional description HTML absent, `adapt_problem` raises
`KeyError("content")`; and with the identity field `titleSlug` absent it
raises `KeyError`, not the spec's `ValidationError`. -/
theorem adapt_problem_identity_counterexample :
    adapt_problem
        { titleSlug := some "two-sum", title := some "Two Sum",
          difficulty := some "Easy" } = .error (.keyError "content") ∧
    adapt_problem
        { title := some "Two Sum", difficulty := some "Easy",
          content := some "<p>desc</p>" } = .error (.keyError "titleSlug") ∧
    PyErr.isValidationError (.keyError "content") = false ∧
    PyErr.isValidationError (.keyError "titleSlug") = false := by
  refine ⟨by rfl, by rfl, by rfl, by rfl⟩

/-- C1 amended: `adapt_problem` treats `content`, `titleSlug`, `title` and
`difficulty` as required keys and raises `KeyError` — not `ValidationError` —
when one is absent (`content` first, in evaluation order); when those are
present with a valid difficulty and non-empty slug/title, and the optional
stats JSON and topic tags do not themselves raise (stats parse returns an
in-range rate, every tag carries a `name`), the adapter returns the fully
populated `Problem` and does not raise on missing or malformed
`exampleTestcases`, `hints` or `constraints`. -/
theorem adapt_problem_required_fields :
    (∀ q : RawQuestion, q.content = none →
      adapt_problem q = .error (.keyError "content")) ∧
    (∀ (q : RawQuestion) (c : String) (r : Rat) (tops : List String),
      q.content = some c →
      parse_acceptance_rate (q.stats.getD "\x7b\x7d") = .ok r →
      tagNames (q.topicTags.getD []) = .ok tops →
      q.titleSlug = none →
      adapt_problem q = .error (.keyError "titleSlug")) ∧
    (∀ (q : RawQuestion) (c i t d : String) (r : Rat) (tops : List String)
        (diff : Difficulty),
      q.content = some c →
      parse_acceptance_rate (q.stats.getD "\x7b\x7d") = .ok r →
      tagNames (q.topicTags.getD []) = .ok tops →
      q.titleSlug = some i → i ≠ "" →
      q.title = some t → t ≠ "" →
      q.difficulty = some d → difficultyOfString d = some diff →
      0 ≤ r → r ≤ 100 →
      adapt_problem q = .ok
        ⟨i, "leetcode", t, diff, parse_html c, tops, q.constraints.getD "",
         parse_examples (q.exampleTestcases.getD ""), q.hints.getD [], r⟩) := by
  refine ⟨?_, ?_, ?_⟩
  · intro q hc
    simp [adapt_problem, req, hc]
  · intro q c r tops hc hr htags hslug
    simp [adapt_problem, req, hc, hr, htags, hslug]
  · intro q c i t d r tops diff hc hr htags hslug hi htitle ht hdiff hd hr0 hr100
    have hrate : ¬(r < 0 ∨ r > 100) := by
      push_neg
      exact ⟨not_lt.mp (by simpa using not_lt.mpr hr0), by simpa using hr100⟩
    simp [adapt_problem, req, hc, hr, htags, hslug, htitle, hdiff, hd,
      Problem.make, hi, ht, hrate]

/-- Witness for the amended C1 at a concrete minimal payload. -/
theorem adapt_problem_required_fields_witness :
    adapt_problem
        { titleSlug := some "two-sum", title := some "Two Sum",
          difficulty := some "Easy", content := some "<p>desc</p>" } = .ok
      ⟨"two-sum", "leetcode", "Two Sum", .easy, parse_html "<p>desc</p>", [],
       "", parse_examples "", [], 0⟩ :=
  adapt_problem_required_fields.2.2
    { titleSlug := some "two-sum", title := some "Two Sum",
      difficulty := some "Easy", content := some "<p>desc</p>" }
    "<p>desc</p>" "two-sum" "Two Sum" "Easy" 0 [] .easy
    rfl (by decide) rfl rfl (by decide) rfl (by decide) rfl rfl
    (by norm_num) (by norm_num)

/-! ## Claim C2: the example parser versus Example blocks -/

/-- C2: the `_parse_examples` in the snapshot does not parse
`Example N: / Input: / Output:` blocks at all — it emits one `Example` per
non-blank line with a placeholder output.  A single malformed block (header
and Input line but no Output line) therefore produces three emitted
examples instead of being skipped entirely. -/
theorem parse_examples_malformed_block_failing_input :
    parse_examples "Example 1:\nInput: x = 1\nExplanation: no output" =
      [⟨"Example 1:", "Example 1 output", none⟩,
       ⟨"Input: x = 1", "Example 2 output", none⟩,
       ⟨"Explanation: no output", "Example 3 output", none⟩] ∧
    (parse_examples "Example 1:\nInput: x = 1\nExplanation: no output").length
      ≠ 0 := by
  refine ⟨by rfl, by decide⟩

/-! ## Claim C7: newline handling in the HTML-to-text conversion -/

/-- C7: on the input of the repository's own test
`test_parse_html_cleans_whitespace`, `_parse_html` collapses the newline run
into a single space and yields `"Hello world"`, not the `"Hello\nworld"`
that the test (and the spec's "preserve paragraph/line breaks") requires. -/
theorem parse_html_newline_failing_input :
    parse_html "<p>Hello    \n\n   world</p>" = "Hello world" ∧
    parse_html "<p>Hello    \n\n   world</p>" ≠ "Hello\nworld" := by
  refine ⟨by rfl, by decide⟩

end Crawler

namespace Crawler

/-! ## Claim C6: the acceptance-rate parser -/

/-- C6 counterexample: on the well-formed JSON inputs `[]` (not an object)
and an object whose `acRate` is a number rather than a string, the uncaught
attribute accesses raise `AttributeError` instead of returning `0.0`. -/
theorem parse_acceptance_rate_counterexample :
    parse_acceptance_rate "[]" = .error (.attributeError "get") ∧
    parse_acceptance_rate "[]" ≠ .ok 0 ∧
    parse_acceptance_rate "\x7b\"acRate\": 49.1\x7d" =
      .error (.attributeError "rstrip") := by
  refine ⟨by decide, by decide, by decide⟩

/-- C6 amended: the parser yields the parsed percentage on a string
`acRate` (`49.1` for the documented example), and `0.0` on empty input,
undecodable JSON, a missing `acRate` key, or an unparsable string value; but
when the JSON decodes to a non-object, or `acRate` holds a non-string, the
attribute access raises an uncaught `AttributeError` (only
`JSONDecodeError`, `ValueError` and `KeyError` are caught). -/
theorem parse_acceptance_rate_amended :
    parse_acceptance_rate "" = .ok 0 ∧
    parse_acceptance_rate "\x7b\"acRate\": \"49.1%\"\x7d" =
      .ok (Rat.divInt 491 10) ∧
    (∀ s : String, s ≠ "" → jsonParse s = none →
      parse_acceptance_rate s = .ok 0) ∧
    (∀ (s : String) (fields : List (String × JVal)), s ≠ "" →
      jsonParse s = some (.obj fields) → dictGet "acRate" fields = none →
      parse_acceptance_rate s = .ok 0) ∧
    (∀ (s a : String) (fields : List (String × JVal)), s ≠ "" →
      jsonParse s = some (.obj fields) →
      dictGet "acRate" fields = some (.str a) →
      parse_acceptance_rate s = .ok ((pyFloat (rstripPercent a)).getD 0)) ∧
    (∀ (s : String) (v : JVal), s ≠ "" → jsonParse s = some v →
      (∀ fields, v ≠ .obj fields) →
      parse_acceptance_rate s = .error (.attributeError "get")) ∧
    (∀ (s : String) (v : JVal) (fields : List (String × JVal)), s ≠ "" →
      jsonParse s = some (.obj fields) → dictGet "acRate" fields = some v →
      (∀ a, v ≠ .str a) →
      parse_acceptance_rate s = .error (.attributeError "rstrip")) := by
  refine ⟨by rfl, by decide, ?_, ?_, ?_, ?_, ?_⟩
  · intro s hs hjson
    simp [parse_acceptance_rate, hs, hjson]
  · intro s fields hs hjson hget
    simp only [parse_acceptance_rate, hs, hjson, hget, if_neg]
    decide
  · intro s a fields hs hjson hget
    cases hpf : pyFloat (rstripPercent a) <;>
      simp [parse_acceptance_rate, hs, hjson, hget, hpf]
  · intro s v hs hjson hne
    cases v with
    | obj fields => exact absurd rfl (hne fields)
    | null => simp [parse_acceptance_rate, hs, hjson]
    | bool b => simp [parse_acceptance_rate, hs, hjson]
    | num q => simp [parse_acceptance_rate, hs, hjson]
    | str a => simp [parse_acceptance_rate, hs, hjson]
    | arr xs => simp [parse_acceptance_rate, hs, hjson]
  · intro s v fields hs hjson hget hne
    cases v with
    | str a => exact absurd rfl (hne a)
    | null => simp [parse_acceptance_rate, hs, hjson, hget]
    | bool b => simp [parse_acceptance_rate, hs, hjson, hget]
    | num q => simp [parse_acceptance_rate, hs, hjson, hget]
    | arr xs => simp [parse_acceptance_rate, hs, hjson, hget]
    | obj o => simp [parse_acceptance_rate, hs, hjson, hget]

/-- Witness for the amended C6: the caught failure cases at concrete
inputs. -/
theorem parse_acceptance_rate_amended_witness :
    parse_acceptance_rate "not json" = .ok 0 ∧
    parse_acceptance_rate "\x7b\"totalAccepted\": \"5.2M\"\x7d" = .ok 0 ∧
    parse_acceptance_rate "\x7b\"acRate\": \"abc%\"\x7d" =
      .ok ((pyFloat (rstripPercent "abc%")).getD 0) ∧
    parse_acceptance_rate "3" = .error (.attributeError "get") ∧
    parse_acceptance_rate "\x7b\"acRate\": null\x7d" =
      .error (.attributeError "rstrip") :=
  ⟨parse_acceptance_rate_amended.2.2.1 "not json" (by decide) rfl,
   parse_acceptance_rate_amended.2.2.2.1 "\x7b\"totalAccepted\": \"5.2M\"\x7d"
     [("totalAccepted", .str "5.2M")] (by decide) rfl rfl,
   parse_acceptance_rate_amended.2.2.2.2.1 "\x7b\"acRate\": \"abc%\"\x7d" "abc%"
     [("acRate", .str "abc%")] (by decide) rfl rfl,
   parse_acceptance_rate_amended.2.2.2.2.2.1 "3" (.num 3) (by decide) rfl
     (fun fields h => by cases h),
   parse_acceptance_rate_amended.2.2.2.2.2.2 "\x7b\"acRate\": null\x7d" .null
     [("acRate", .null)] (by decide) rfl rfl (fun a h => by cases h)⟩

end Crawler

namespace Crawler

/-! ## Claim C3: Update-mode timestamp comparison -/

/-- C3: for a persisted item in Update mode, the item is downloaded exactly
when the remote submission's timestamp is strictly newer than the stored one
or no stored timestamp exists; a remote timestamp less than or equal to the
stored one skips, and a comparison fetch that yields nothing (including
every fetch error, which the client converts to `None`) is recorded as a
skip, not a failure. -/
theorem update_mode_timestamp_policy :
    (∀ (ft : Option Int) (fetch : String → Option (Option Int)) (url slug : String),
      extractSlug url = some slug →
      ((ft = none → (check_needs_update true ft fetch url).1 = true) ∧
       (∀ l t : Int, ft = some l → fetch slug = some (some t) →
         ((check_needs_update true ft fetch url).1 = true ↔ l < t)) ∧
       (∀ l : Int, ft = some l → fetch slug = none →
         (check_needs_update true ft fetch url).1 = false))) ∧
    (∀ (env : BatchEnv) (url : String),
      env.fileExists ((extractSlug url).getD url) = true →
      (check_needs_update true (env.fileTs ((extractSlug url).getD url))
          env.fetch url).1 = false →
      runBatch .update env [url] =
        ({ success := 0, skipped := 1, failed := 0, updated := 0,
           total := 1 }, [])) := by
  constructor
  · intro ft fetch url slug hslug
    refine ⟨?_, ?_, ?_⟩
    · intro hft
      simp [check_needs_update, hft]
    · intro l t hft hfetch
      by_cases h : t > l <;>
        simp [check_needs_update, hft, hslug, hfetch, h, not_lt.mp]
    · intro l hft hfetch
      simp [check_needs_update, hft, hslug, hfetch]
  · intro env url hex hchk
    simp [runBatch, batchStep, decideItem, hex, hchk]

/-- Witness for C3 at a concrete url and environment where the comparison
fetch fails: the item is skipped. -/
theorem update_mode_timestamp_policy_witness :
    (check_needs_update true (some 5) (fun _ => none)
      "https://leetcode.com/problems/two-sum/").1 = false ∧
    runBatch .update
        ⟨fun _ => true, fun _ => some 5, fun _ => none, fun _ => true⟩
        ["https://leetcode.com/problems/two-sum/"] =
      ({ success := 0, skipped := 1, failed := 0, updated := 0,
         total := 1 }, []) :=
  ⟨(update_mode_timestamp_policy.1 (some 5) (fun _ => none)
      "https://leetcode.com/problems/two-sum/" "two-sum" (by decide)).2.2
    5 rfl rfl,
   update_mode_timestamp_policy.2
    ⟨fun _ => true, fun _ => some 5, fun _ => none, fun _ => true⟩
    "https://leetcode.com/problems/two-sum/" (by decide)
    ((update_mode_timestamp_policy.1 (some 5) (fun _ => none)
      "https://leetcode.com/problems/two-sum/" "two-sum" (by decide)).2.2
      5 rfl rfl)⟩

/-! ## Claim C4: Skip-mode accounting -/

/-- C4 counterexample: in default Skip mode a batch whose single item is
already persisted reports `total = 1` (the item stays in the work list and
is counted as skipped during the loop), not `total = 0`. -/
theorem skip_mode_total_counterexample :
    runBatch .skip ⟨fun _ => true, fun _ => none, fun _ => none, fun _ => true⟩
        ["https://leetcode.com/problems/two-sum/"] =
      ({ success := 0, skipped := 1, failed := 0, updated := 0,
         total := 1 }, []) ∧
    (runBatch .skip ⟨fun _ => true, fun _ => none, fun _ => none, fun _ => true⟩
        ["https://leetcode.com/problems/two-sum/"]).1.total ≠ 0 := by
  refine ⟨by decide, by decide⟩

theorem skip_fold {env : BatchEnv} :
    ∀ (urls : List String) (acc : BatchStats × List String),
      (∀ u ∈ urls, env.fileExists ((extractSlug u).getD u) = true) →
      urls.foldl (batchStep .skip env) acc =
        ({ acc.1 with skipped := acc.1.skipped + urls.length }, acc.2) := by
  intro urls
  induction urls with
  | nil =>
    intro acc _
    obtain ⟨⟨s, k, f, u, t⟩, tr⟩ := acc
    rfl
  | cons u rest ih =>
    intro acc h
    have hu : env.fileExists ((extractSlug u).getD u) = true :=
      h u (List.mem_cons_self u rest)
    have hrest : ∀ v ∈ rest, env.fileExists ((extractSlug v).getD v) = true :=
      fun v hv => h v (List.mem_cons_of_mem u hv)
    simp only [List.foldl_cons, batchStep, decideItem, hu, if_true]
    rw [ih _ hrest]
    simp [Nat.add_assoc, Nat.add_comm 1 rest.length]

/-- C4 amended: in Skip mode every already-persisted item is skipped during
the loop — no download is attempted for it (the attempt trace stays empty)
and it is counted in `skipped` — but it is not excluded from the work list:
the reported total still counts it (`total = len(urls)`), so for a
one-item batch the total is 1, not 0. -/
theorem skip_mode_counts :
    ∀ (env : BatchEnv) (urls : List String),
      (∀ u ∈ urls, env.fileExists ((extractSlug u).getD u) = true) →
      runBatch .skip env urls =
        ({ success := 0, skipped := urls.length, failed := 0, updated := 0,
           total := urls.length }, []) := by
  intro env urls h
  unfold runBatch
  rw [skip_fold urls _ h]
  simp

/-- Witness for the amended C4 at a concrete one-item batch. -/
theorem skip_mode_counts_witness :
    runBatch .skip ⟨fun _ => true, fun _ => some 7, fun _ => none, fun _ => true⟩
        ["https://leetcode.com/problems/add-two-numbers/"] =
      ({ success := 0, skipped := 1, failed := 0, updated := 0,
         total := 1 }, []) :=
  skip_mode_counts
    ⟨fun _ => true, fun _ => some 7, fun _ => none, fun _ => true⟩
    ["https://leetcode.com/problems/add-two-numbers/"]
    (by intro u hu; simp at hu; subst hu; rfl)

end Crawler

namespace Crawler

/-! ## Claim C8: paging and de-duplication -/

/-- C8 counterexample: a server whose first page repeats a question makes
the fetch return the duplicate verbatim (its id appears twice), and the run
stops because `skip >= total`, without ever fetching an empty page. -/
theorem fetch_all_duplicates_counterexample :
    fetch_all_problems_with_status
        (fun _ => ⟨[⟨"1", "two-sum", some "ac"⟩, ⟨"1", "two-sum", some "ac"⟩], 2⟩)
        5 =
      some [⟨"1", "two-sum", some "ac"⟩, ⟨"1", "two-sum", some "ac"⟩] ∧
    ¬ (([(⟨"1", "two-sum", some "ac"⟩ : LCQuestion),
         ⟨"1", "two-sum", some "ac"⟩]).map LCQuestion.frontendQuestionId).Nodup := by
  refine ⟨by rfl, by decide⟩

theorem dedupKeepFirst_mem_not_seen :
    ∀ (l : List String) (seen : List String) (u : String),
      u ∈ dedupKeepFirst seen l → u ∉ seen := by
  intro l
  induction l with
  | nil => intro seen u hu; simp [dedupKeepFirst] at hu
  | cons v rest ih =>
    intro seen u hu
    by_cases hv : v ∈ seen
    · exact ih seen u (by simpa [dedupKeepFirst, hv] using hu)
    · simp only [dedupKeepFirst, hv, if_neg, if_false] at hu
      rcases List.mem_cons.mp (by simpa using hu) with rfl | hu'
      · exact hv
      · intro hseen
        exact ih (v :: seen) u hu' (List.mem_cons_of_mem v hseen)

theorem dedupKeepFirst_nodup :
    ∀ (l : List String) (seen : List String), (dedupKeepFirst seen l).Nodup := by
  intro l
  induction l with
  | nil => intro seen; simp [dedupKeepFirst]
  | cons v rest ih =>
    intro seen
    by_cases hv : v ∈ seen
    · simpa [dedupKeepFirst, hv] using ih seen
    · simp only [dedupKeepFirst, hv, if_neg, if_false]
      refine List.nodup_cons.mpr ⟨?_, ih (v :: seen)⟩
      intro hmem
      exact dedupKeepFirst_mem_not_seen rest (v :: seen) v hmem
        (List.mem_cons_self v seen)

/-- C8 amended: the paging loop uses fixed pages of 100 and stops when a
page comes back empty *or* once the advanced offset reaches the reported
total; the list it returns is the concatenation of the fetched pages with no
de-duplication (the first page is returned verbatim when the totals stop
the loop).  De-duplication happens downstream: `get_solved_problem_urls`
returns a duplicate-free url list. -/
theorem fetch_all_paging_and_dedup :
    (∀ (server : Nat → LCPage) (fuel : Nat), (server 0).questions = [] →
      fetch_all_problems_with_status server (fuel + 1) = some []) ∧
    (∀ (server : Nat → LCPage) (fuel : Nat), (server 0).questions ≠ [] →
      (server 0).total ≤ 100 →
      fetch_all_problems_with_status server (fuel + 1) =
        some (server 0).questions) ∧
    (∀ problems : List LCQuestion, (get_solved_problem_urls problems).Nodup) := by
  refine ⟨?_, ?_, ?_⟩
  · intro server fuel h
    simp [fetch_all_problems_with_status, fetchAllAux, h]
  · intro server fuel h hle
    have hcast : ((0 + 100 : Nat) : Int) = 100 := by norm_num
    simp only [fetch_all_problems_with_status, fetchAllAux, h, if_neg,
      if_false, hcast]
    rw [if_pos (by exact le_trans hle (by norm_num))]
    simp
  · intro problems
    exact dedupKeepFirst_nodup _ []

/-- Witness for the amended C8 at concrete servers and a concrete problem
list with a repeated slug. -/
theorem fetch_all_paging_and_dedup_witness :
    fetch_all_problems_with_status (fun _ => ⟨[], 10⟩) 3 = some [] ∧
    fetch_all_problems_with_status
        (fun _ => ⟨[⟨"1", "two-sum", some "ac"⟩], 1⟩) 3 =
      some [⟨"1", "two-sum", some "ac"⟩] ∧
    (get_solved_problem_urls
        [⟨"1", "two-sum", some "ac"⟩, ⟨"1", "two-sum", some "ac"⟩,
         ⟨"2", "add-two-numbers", none⟩]).Nodup :=
  ⟨fetch_all_paging_and_dedup.1 (fun _ => ⟨[], 10⟩) 2 rfl,
   fetch_all_paging_and_dedup.2.1 (fun _ => ⟨[⟨"1", "two-sum", some "ac"⟩], 1⟩)
     2 (by decide) (by norm_num),
   fetch_all_paging_and_dedup.2.2
     [⟨"1", "two-sum", some "ac"⟩, ⟨"1", "two-sum", some "ac"⟩,
      ⟨"2", "add-two-numbers", none⟩]⟩

/-! ## Claim C9: Problem validation and mutability -/

/-- C9 counterexample: the `Problem` dataclass is not frozen, so assigning
to a field of a constructed instance succeeds and changes the field — the
entity is not immutable. -/
theorem problem_mutation_counterexample :
    Problem.pySetTitle
        ⟨"two-sum", "leetcode", "Two Sum", .easy, "d", [], "", [], [], 50⟩
        "Changed" =
      .ok ⟨"two-sum", "leetcode", "Changed", .easy, "d", [], "", [], [], 50⟩ ∧
    (⟨"two-sum", "leetcode", "Changed", .easy, "d", [], "", [], [], 50⟩ :
        Problem).title ≠
      (⟨"two-sum", "leetcode", "Two Sum", .easy, "d", [], "", [], [], 50⟩ :
        Problem).title := by
  refine ⟨by rfl, by decide⟩

/-- C9 amended: construction validates exactly the claimed invariants —
`Problem.make` succeeds iff id, title and platform are non-empty and the
acceptance rate lies in `[0, 100]` — but the constructed entity is not
immutable: field assignment on the plain dataclass always succeeds. -/
theorem problem_validation_and_mutability :
    (∀ (id platform title : String) (difficulty : Difficulty)
        (description : String) (topics : List String) (constraints : String)
        (examples : List Example) (hints : List String) (rate : Rat),
      (∃ p, Problem.make id platform title difficulty description topics
          constraints examples hints rate = .ok p) ↔
        (id ≠ "" ∧ title ≠ "" ∧ platform ≠ "" ∧ 0 ≤ rate ∧ rate ≤ 100)) ∧
    (∀ (p : Problem) (v : String),
      Problem.pySetTitle p v = .ok { p with title := v }) := by
  constructor
  · intro id platform title difficulty description topics constraints
      examples hints rate
    constructor
    · rintro ⟨p, hp⟩
      unfold Problem.make at hp
      split_ifs at hp with h1 h2 h3 h4
      push_neg at h4
      exact ⟨h1, h2, h3, h4.1, h4.2⟩
    · rintro ⟨h1, h2, h3, h4, h5⟩
      have hrate : ¬(rate < 0 ∨ rate > 100) := by
        push_neg
        exact ⟨h4, h5⟩
      exact ⟨⟨id, platform, title, difficulty, description, topics,
        constraints, examples, hints, rate⟩,
        by simp [Problem.make, h1, h2, h3, hrate]⟩
  · intro p v
    simp [Problem.pySetTitle, problemDataclassFrozen]

/-- Witness for the amended C9: a concrete valid construction succeeds, and
a concrete field assignment goes through. -/
theorem problem_validation_and_mutability_witness :
    (∃ p, Problem.make "two-sum" "leetcode" "Two Sum" .easy "d" [] "" [] [] 50 =
      .ok p) ∧
    Problem.pySetTitle
        ⟨"two-sum", "leetcode", "Two Sum", .easy, "d", [], "", [], [], 50⟩
        "Other" =
      .ok ⟨"two-sum", "leetcode", "Other", .easy, "d", [], "", [], [], 50⟩ :=
  ⟨(problem_validation_and_mutability.1 "two-sum" "leetcode" "Two Sum" .easy
      "d" [] "" [] [] 50).mpr
    ⟨by decide, by decide, by decide, by norm_num, by norm_num⟩,
   problem_validation_and_mutability.2
    ⟨"two-sum", "leetcode", "Two Sum", .easy, "d", [], "", [], [], 50⟩ "Other"⟩

/-! ## Claim C10: the placeholder submission -/

/-- C10: whenever the question-id request succeeds and the GraphQL response
carries no errors, `fetch_submission` returns the fixed placeholder
submission — independent of the username and of any actual submissions; in
particular the returned timestamp is always 0. -/
theorem fetch_submission_placeholder :
    ∀ (problem_id username : String) (resp : GqlResp), resp.errors = none →
      fetch_submission problem_id username resp = .ok
        { id := "placeholder", problem_id := problem_id,
          language := "python3", code := placeholderCode, status := .accepted,
          runtime := "N/A", memory := "N/A", timestamp := 0,
          percentiles := none } := by
  intro problem_id username resp h
  simp [fetch_submission, h]

/-- Witness for C10 at a concrete problem and user. -/
theorem fetch_submission_placeholder_witness :
    fetch_submission "two-sum" "alice" ⟨none⟩ = .ok
      { id := "placeholder", problem_id := "two-sum", language := "python3",
        code := placeholderCode, status := .accepted, runtime := "N/A",
        memory := "N/A", timestamp := 0, percentiles := none } :=
  fetch_submission_placeholder "two-sum" "alice" ⟨none⟩ rfl

end Crawler
